import Mathlib

/-!
Verification of the ninja-hunt game engine (ninja_bot).

Shallow embedding of the phase-based game engine of `ninja_bot/ninja_hunt`:
the reaction-scoring rule, the leaderboard ranking, the hunting eligibility
filter and selection probability, the phase lifecycle flags, the game-loop
running-flag checks, the per-round reaction collection, the scoreboard
operations, and the sleeping-phase duration.  Machine integers are modelled
as `Nat`/`Int`, Python floats as `ℚ`, Python dicts as insertion-ordered
association lists, and fallible construction as `Option`.
-/

/- ## ReactionPhase scoring (game.py lines 296-344) -/

/-- Truncation toward zero, the behaviour of Python's `int()` applied to a
nonnegative or negative numeric value. -/
def pytrunc (x : ℚ) : ℤ := if 0 ≤ x then ⌊x⌋ else ⌈x⌉

/-- Embeds `ReactionPhase.time_remaining`: `max(TIMEOUT - time_passed, 0.0)`,
with `T` the reaction window (`TIMEOUT`) and `e` the elapsed time since the
phase's start timestamp. -/
def time_remaining (T e : ℚ) : ℚ := max (T - e) 0

/-- Embeds `ReactionPhase._calculate_win_points`:
`lost_points = int((TIMEOUT - self.time_remaining) / SECONDS_PER_POINT)` and
`return max(MAX_POINTS - lost_points, 1)`, where
`SECONDS_PER_POINT = TIMEOUT / MAX_POINTS`.  `T` is the reaction window,
`P` is `MAX_POINTS`, `e` the elapsed time. -/
def calculate_win_points (T : ℚ) (P : ℕ) (e : ℚ) : ℤ :=
  max ((P : ℤ) - pytrunc ((T - time_remaining T e) / (T / (P : ℚ)))) 1

/-- Awarded points as the specification words them:
`max(P - floor(e / secondsPerPoint), 1)` with `secondsPerPoint = T / P`. -/
def awarded_points_spec (T : ℚ) (P : ℕ) (e : ℚ) : ℤ :=
  max ((P : ℤ) - ⌊e / (T / (P : ℚ))⌋) 1

theorem pytrunc_of_nonneg (x : ℚ) (hx : 0 ≤ x) : pytrunc x = ⌊x⌋ := by
  simp [pytrunc, hx]

theorem elapsed_eff (T e : ℚ) :
    T - time_remaining T e = min e T := by
  rcases le_total e T with h | h
  · have : T - e ≥ 0 := by linarith
    simp [time_remaining, min_eq_left h, max_eq_left this]
  · have : T - e ≤ 0 := by linarith
    simp [time_remaining, min_eq_right h, max_eq_right this]

theorem calculate_win_points_eq_floor (T : ℕ) (P : ℕ) (e : ℚ)
    (hT : 0 < T) (hP : 1 ≤ P) (he : 0 ≤ e) :
    calculate_win_points T P e
      = max ((P : ℤ) - ⌊min e (T : ℚ) / ((T : ℚ) / (P : ℚ))⌋) 1 := by
  have hT0 : (0 : ℚ) ≤ (T : ℚ) := by positivity
  have hspp : (0 : ℚ) < (T : ℚ) / (P : ℚ) := by
    apply div_pos
    · exact_mod_cast hT
    · exact_mod_cast Nat.lt_of_lt_of_le Nat.zero_lt_one hP
  have hmin : (0 : ℚ) ≤ min e (T : ℚ) := le_min he hT0
  rw [calculate_win_points, elapsed_eff,
    pytrunc_of_nonneg _ (div_nonneg hmin hspp.le)]

theorem floor_window_div_spp (T P : ℕ) (hT : 0 < T) (hP : 1 ≤ P) :
    ⌊(T : ℚ) / ((T : ℚ) / (P : ℚ))⌋ = (P : ℤ) := by
  have hTq : (0 : ℚ) < (T : ℚ) := by exact_mod_cast hT
  have hPq : (0 : ℚ) < (P : ℚ) := by exact_mod_cast Nat.lt_of_lt_of_le Nat.zero_lt_one hP
  have : (T : ℚ) / ((T : ℚ) / (P : ℚ)) = (P : ℚ) := by
    field_simp
  rw [this]
  exact Int.floor_natCast P

/-- C1 counterexample: with max points `P = 1` and window 60 s — a legal
configuration, since only `P = 0` would crash at import — the award at
elapsed time 60 s equals `1 = P` although 60 lies outside the first interval
`[0, 60/1)`, so the award does not equal `P` exactly when `e` is in the
first interval. -/
theorem award_equals_max_outside_first_interval :
    calculate_win_points 60 1 60 = (1 : ℤ) ∧
    ¬ ((60 : ℚ) < (60 : ℚ) / ((1 : ℕ) : ℚ)) := by
  constructor
  · norm_num [calculate_win_points, time_remaining, pytrunc]
  · norm_num

/-- C1 (amended): for every elapsed time `e` in a ReactionPhase with window
`T` and max points `P`, the awarded points equal
`max(P - floor(e / (T/P)), 1)`; they are non-increasing in `e`, lie in
`[1, P]`, equal `P` at `e = 0` and throughout the first interval, and — for
`P ≥ 2` — only there (with `P = 1` the award equals `P = 1` for every
elapsed time). -/
theorem calculate_win_points_correct (T P : ℕ) (e eL : ℚ)
    (hT : 0 < T) (hP : 1 ≤ P) (he : 0 ≤ e) (heL : e ≤ eL) :
    calculate_win_points T P e = awarded_points_spec T P e ∧
    calculate_win_points T P eL ≤ calculate_win_points T P e ∧
    1 ≤ calculate_win_points T P e ∧
    calculate_win_points T P e ≤ (P : ℤ) ∧
    calculate_win_points T P 0 = (P : ℤ) ∧
    (e < (T : ℚ) / (P : ℚ) → calculate_win_points T P e = (P : ℤ)) ∧
    (2 ≤ P → calculate_win_points T P e = (P : ℤ) → e < (T : ℚ) / (P : ℚ)) := by
  have hTq : (0 : ℚ) < (T : ℚ) := by exact_mod_cast hT
  have hPq : (0 : ℚ) < (P : ℚ) := by exact_mod_cast Nat.lt_of_lt_of_le Nat.zero_lt_one hP
  have hPz : (1 : ℤ) ≤ (P : ℤ) := by exact_mod_cast hP
  have hspp : (0 : ℚ) < (T : ℚ) / (P : ℚ) := div_pos hTq hPq
  have hsppT : (T : ℚ) / (P : ℚ) ≤ (T : ℚ) := by
    apply div_le_self hTq.le
    exact_mod_cast hP
  have heL0 : (0 : ℚ) ≤ eL := le_trans he heL
  have key : ∀ x : ℚ, 0 ≤ x → calculate_win_points T P x
      = max ((P : ℤ) - ⌊min x (T : ℚ) / ((T : ℚ) / (P : ℚ))⌋) 1 := by
    intro x hx
    exact calculate_win_points_eq_floor T P x hT hP hx
  have hfloor_nonneg : ∀ x : ℚ, 0 ≤ x →
      0 ≤ ⌊min x (T : ℚ) / ((T : ℚ) / (P : ℚ))⌋ := by
    intro x hx
    apply Int.floor_nonneg.mpr
    exact div_nonneg (le_min hx hTq.le) hspp.le
  refine ⟨?_, ?_, ?_, ?_, ?_, ?_, ?_⟩
  · rw [key e he, awarded_points_spec]
    rcases le_total e (T : ℚ) with h | h
    · rw [min_eq_left h]
    · rw [min_eq_right h]
      rw [floor_window_div_spp T P hT hP]
      have h1 : ⌊(T : ℚ) / ((T : ℚ) / (P : ℚ))⌋ ≤ ⌊e / ((T : ℚ) / (P : ℚ))⌋ :=
        Int.floor_le_floor ((div_le_div_iff_of_pos_right hspp).mpr h)
      rw [floor_window_div_spp T P hT hP] at h1
      rw [max_eq_right (by linarith), max_eq_right (by linarith)]
  · rw [key e he, key eL heL0]
    have hmin : min e (T : ℚ) ≤ min eL (T : ℚ) := min_le_min heL le_rfl
    have : ⌊min e (T : ℚ) / ((T : ℚ) / (P : ℚ))⌋
        ≤ ⌊min eL (T : ℚ) / ((T : ℚ) / (P : ℚ))⌋ :=
      Int.floor_le_floor ((div_le_div_iff_of_pos_right hspp).mpr hmin)
    exact max_le_max (by linarith) le_rfl
  · rw [key e he]
    exact le_max_right _ _
  · rw [key e he]
    apply max_le (by linarith [hfloor_nonneg e he]) hPz
  · rw [key 0 le_rfl, min_eq_left hTq.le, zero_div, Int.floor_zero, sub_zero]
    exact max_eq_left hPz
  · intro hfirst
    rw [key e he, min_eq_left (le_trans hfirst.le hsppT)]
    have h0 : ⌊e / ((T : ℚ) / (P : ℚ))⌋ = 0 := by
      apply Int.floor_eq_zero_iff.mpr
      constructor
      · exact div_nonneg he hspp.le
      · exact (div_lt_one hspp).mpr hfirst
    rw [h0, sub_zero]
    exact max_eq_left hPz
  · intro hP2 hmax
    by_contra hcon
    push_neg at hcon
    have hP2z : (2 : ℤ) ≤ (P : ℤ) := by exact_mod_cast hP2
    have hminge : (T : ℚ) / (P : ℚ) ≤ min e (T : ℚ) := le_min hcon hsppT
    have h1 : (1 : ℚ) ≤ min e (T : ℚ) / ((T : ℚ) / (P : ℚ)) :=
      (le_div_iff₀ hspp).mpr (by linarith)
    have h1z : (1 : ℤ) ≤ ⌊min e (T : ℚ) / ((T : ℚ) / (P : ℚ))⌋ := by
      exact_mod_cast Int.le_floor.mpr (by exact_mod_cast h1)
    rw [key e he] at hmax
    have : max ((P : ℤ) - ⌊min e (T : ℚ) / ((T : ℚ) / (P : ℚ))⌋) 1 ≤ (P : ℤ) - 1 := by
      apply max_le (by linarith) (by linarith)
    omega

/-- Witness for C1 at the spec's own example: window 60 s, max points 10,
a reaction at 6 s elapsed (worth 9 points), compared with one at 12 s. -/
theorem calculate_win_points_correct_witness :
    (0 < 60 ∧ 1 ≤ 10 ∧ (0 : ℚ) ≤ 6 ∧ (6 : ℚ) ≤ 12) ∧
    (calculate_win_points 60 10 6 = awarded_points_spec 60 10 6 ∧
    calculate_win_points 60 10 12 ≤ calculate_win_points 60 10 6 ∧
    1 ≤ calculate_win_points 60 10 6 ∧
    calculate_win_points 60 10 6 ≤ (10 : ℤ) ∧
    calculate_win_points 60 10 0 = (10 : ℤ) ∧
    ((6 : ℚ) < (60 : ℚ) / (10 : ℚ) → calculate_win_points 60 10 6 = (10 : ℤ)) ∧
    (2 ≤ 10 → calculate_win_points 60 10 6 = (10 : ℤ) → (6 : ℚ) < (60 : ℚ) / (10 : ℚ))) := by
  constructor
  · norm_num
  · have h := calculate_win_points_correct 60 10 6 12 (by norm_num) (by norm_num)
      (by norm_num) (by norm_num)
    exact_mod_cast h

/- ## SleepingPhase duration (game.py lines 125-162) -/

/-- Embeds Python's `random.randint(a, b)` with the drawn value `r` made
explicit: the call raises `ValueError` (modelled as `none`) whenever the
range `[a, b]` is empty, i.e. when `a > b`, and otherwise returns a value
of `[a, b]`; `r` is the entropy the generator drew. -/
def randint (a b r : ℤ) : Option ℤ :=
  if a ≤ b then some r else none

/-- Embeds the duration computed in `SleepingPhase.__init__`:
`self._sleep_duration = COOLDOWN + random.randint(1, MAX_TIME_JITTER)`.
A `none` result models the constructor raising before any sleeping begins. -/
def sleep_duration (cooldown maxJitter r : ℤ) : Option ℤ :=
  (randint 1 maxJitter r).map (fun j => cooldown + j)

/-- C9 counterexample: a SleepingPhase with cooldown 5 and maxJitter 0 does
not resolve after 5 seconds — `random.randint(1, 0)` is called on an empty
range, so construction fails and no duration exists at all. -/
theorem sleeping_phase_zero_jitter_fails :
    sleep_duration 5 0 1 = none ∧ sleep_duration 5 0 1 ≠ some 5 := by
  constructor
  · rfl
  · intro h
    simp [sleep_duration, randint] at h

/-- C9 (amended): for maxJitter ≥ 1 and any drawn value `r ∈ [1, maxJitter]`,
the duration equals `cooldown + r` and lies in
`[cooldown + 1, cooldown + maxJitter]`; with maxJitter ≤ 0 construction
fails instead of resolving. -/
theorem sleep_duration_range (cooldown maxJitter r : ℤ)
    (h1 : 1 ≤ r) (h2 : r ≤ maxJitter) :
    sleep_duration cooldown maxJitter r = some (cooldown + r) ∧
    cooldown + 1 ≤ cooldown + r ∧ cooldown + r ≤ cooldown + maxJitter := by
  refine ⟨?_, by linarith, by linarith⟩
  simp [sleep_duration, randint, le_trans h1 h2]

/-- Witness for C9 (amended): cooldown 5, maxJitter 3, drawn value 2. -/
theorem sleep_duration_range_witness :
    ((1 : ℤ) ≤ 2 ∧ (2 : ℤ) ≤ 3) ∧
    (sleep_duration 5 3 2 = some 7 ∧
    (5 : ℤ) + 1 ≤ 5 + 2 ∧ (5 : ℤ) + 2 ≤ 5 + 3) := by
  constructor
  · norm_num
  · exact sleep_duration_range 5 3 2 (by norm_num) (by norm_num)

/-- C10: constructing a SleepingPhase requires maxJitter ≥ 1 — for every
configuration with maxJitter ≤ 0 the `random.randint(1, maxJitter)` call in
the constructor fails on an empty range, whatever the generator would have
drawn, so no phase with a non-positive jitter ever exists. -/
theorem sleep_duration_nonpositive_jitter_none (cooldown maxJitter r : ℤ)
    (h : maxJitter ≤ 0) :
    sleep_duration cooldown maxJitter r = none := by
  have : ¬ (1 : ℤ) ≤ maxJitter := by linarith
  simp [sleep_duration, randint, this]

/-- Witness for C10: cooldown 7, maxJitter -1, attempted draw 2. -/
theorem sleep_duration_nonpositive_jitter_none_witness :
    (-1 : ℤ) ≤ 0 ∧ sleep_duration 7 (-1) 2 = none := by
  constructor
  · norm_num
  · exact sleep_duration_nonpositive_jitter_none 7 (-1) 2 (by norm_num)

/- ## NinjaPhase lifecycle (game.py lines 70-122) -/

/-- State of a `NinjaPhase`: the `_finished` and `_cancelled` flags set in
`NinjaPhase.__init__` and mutated by `_finish` and `_cancel`. -/
structure PhaseState where
  finished : Bool
  cancelled : Bool
deriving DecidableEq, Repr

/-- Both flags start false (`NinjaPhase.__init__`). -/
def initPhase : PhaseState := ⟨false, false⟩

/-- Embeds `NinjaPhase.run` when the awaited future resolves normally: the
`finally` block calls `_finish`, which sets `_finished = True`. -/
def run_normal (s : PhaseState) : PhaseState :=
  { s with finished := true }

/-- Embeds `NinjaPhase.run` when the await raises `asyncio.CancelledError`:
the `except` branch calls `_cancel` (setting `_cancelled = True`) and the
`finally` block then still calls `_finish` (setting `_finished = True`). -/
def run_cancelled (s : PhaseState) : PhaseState :=
  { s with cancelled := true, finished := true }

/-- Embeds the `NinjaPhase.active` property:
`not self._finished and not self._cancelled`. -/
def phase_active (s : PhaseState) : Bool :=
  !s.finished && !s.cancelled

/-- C4 counterexample: a phase whose `run()` is cancelled ends with BOTH the
cancelled and the finished flag set — `run`'s `finally` block marks even a
cancelled phase finished, so the phase does not end "Cancelled and not
Finished" as claimed. -/
theorem cancelled_run_also_finished :
    (run_cancelled initPhase).cancelled = true ∧
    (run_cancelled initPhase).finished = true := by
  exact ⟨rfl, rfl⟩

/-- C4 (amended): a phase starts active with both flags clear; a normal run
sets only the finished flag; a cancelled run sets the cancelled flag AND the
finished flag (so a cancelled phase also reports finished); neither
transition ever clears a flag that was already set; and `active` is true iff
neither flag is set. -/
theorem phase_lifecycle_flags (s : PhaseState) :
    phase_active initPhase = true ∧
    initPhase.finished = false ∧ initPhase.cancelled = false ∧
    (run_normal s).finished = true ∧ (run_normal s).cancelled = s.cancelled ∧
    (run_cancelled s).finished = true ∧ (run_cancelled s).cancelled = true ∧
    (s.finished = true → (run_normal s).finished = true ∧
      (run_cancelled s).finished = true) ∧
    (s.cancelled = true → (run_normal s).cancelled = true ∧
      (run_cancelled s).cancelled = true) ∧
    (phase_active s = true ↔ s.finished = false ∧ s.cancelled = false) := by
  refine ⟨rfl, rfl, rfl, rfl, rfl, rfl, rfl, ?_, ?_, ?_⟩
  · intro h
    exact ⟨rfl, rfl⟩
  · intro h
    exact ⟨h, rfl⟩
  · cases hf : s.finished <;> cases hc : s.cancelled <;> simp [phase_active, hf, hc]

/- ## Game loop running-flag checks (cog.py lines 200-229) -/

/-- Embeds the control flow of `NinjaHunt._game_loop` as far as the running
flag is concerned.  The three booleans give the value `self._running` holds
when the loop reaches the point just after the Sleeping, Hunting and
Reaction phases respectively; the result is whether the loop reaches
`self._process_results` (i.e. whether the round's scores are applied).  The
source checks `if not self._running: return` after the Sleeping and Hunting
phases, and proceeds straight to score processing after the Reaction
phase. -/
def game_loop_scores (runningAfterSleep runningAfterHunt runningAfterReaction : Bool) : Bool :=
  if !runningAfterSleep then false
  else if !runningAfterHunt then false
  else true

/-- Scoring as C5 claims it: the flag is also re-checked after the Reaction
phase, and scoring is skipped when any of the three checks fails. -/
def game_loop_scores_claim (runningAfterSleep runningAfterHunt runningAfterReaction : Bool) : Bool :=
  runningAfterSleep && runningAfterHunt && runningAfterReaction

/-- C5 counterexample: when a stop request clears the running flag during
the ReactionPhase, the code still applies that round's points — there is no
running-flag check between the Reaction phase and `_process_results` —
while the claim says the cycle aborts without scoring. -/
theorem scores_processed_despite_stop_during_reaction :
    game_loop_scores true true false = true ∧
    game_loop_scores_claim true true false = false := by
  exact ⟨rfl, rfl⟩

/-- C5 (amended): the running flag is re-checked after the Sleeping phase
and after the Hunting phase only, and the cycle aborts without scoring when
either check fails; the flag's value after the Reaction phase is never
consulted, so a stop request arriving during the ReactionPhase does not
prevent that round's points from being applied. -/
theorem game_loop_running_checks (a b c : Bool) :
    game_loop_scores a b c = (a && b) := by
  cases a <;> cases b <;> rfl

/- ## Persistent scoreboard operations (cog.py lines 157-162, 375-387, 460-495) -/

/-- Embeds `RedisCache.increment` as used by `NinjaHunt._process_scores`:
`await self.scoreboard.increment(member_id, score.points)` adds the delta to
the stored value, treating a missing key as 0.  The scoreboard is an
insertion-ordered mapping from member id to cumulative score. -/
def scoreboard_increment : List (ℕ × ℤ) → ℕ → ℤ → List (ℕ × ℤ)
  | [], uid, p => [(uid, p)]
  | (k, v) :: t, uid, p =>
      if k = uid then (k, v + p) :: t else (k, v) :: scoreboard_increment t uid p

/-- Embeds `NinjaHunt._process_scores`: for every member in the round's
scores, increment their persistent cumulative score by their round points. -/
def process_scores (board : List (ℕ × ℤ)) (scores : List (ℕ × ℤ)) : List (ℕ × ℤ) :=
  scores.foldl (fun b s => scoreboard_increment b s.1 s.2) board

/-- Embeds the scoreboard mutation in `NinjaHunt.block`:
`await self.scoreboard.delete(user.id)` removes the blocked member's key. -/
def block_user (board : List (ℕ × ℤ)) (uid : ℕ) : List (ℕ × ℤ) :=
  board.filter (fun e => e.1 ≠ uid)

/-- Embeds the scoreboard mutation in `NinjaHunt.game_clear` on confirm:
`await self.scoreboard.clear()` removes every key. -/
def clear_board (board : List (ℕ × ℤ)) : List (ℕ × ℤ) := []

/-- C7 counterexample: the admin `block` command — not the score-aggregation
step — changes a member's stored cumulative score: member 1 has score 10 on
the scoreboard, and after `block 1` their stored score is gone. -/
theorem block_mutates_scoreboard :
    List.lookup 1 [(1, (10 : ℤ))] = some 10 ∧
    List.lookup 1 (block_user [(1, (10 : ℤ))] 1) = none ∧
    clear_board [(1, (10 : ℤ))] = [] := by
  exact ⟨rfl, rfl, rfl⟩

theorem lookup_cons_entry (a : ℕ) (hd : ℕ × ℤ) (t : List (ℕ × ℤ)) :
    List.lookup a (hd :: t) = if a = hd.1 then some hd.2 else List.lookup a t := by
  obtain ⟨k, v⟩ := hd
  by_cases h : a = k
  · simp [List.lookup, h]
  · have e : (a == k) = false := by simp [h]
    simp [List.lookup, e, h]

theorem block_user_cons (hd : ℕ × ℤ) (t : List (ℕ × ℤ)) (uid : ℕ) :
    block_user (hd :: t) uid
      = if hd.1 = uid then block_user t uid else hd :: block_user t uid := by
  by_cases h : hd.1 = uid <;> simp [block_user, h]

theorem increment_cons (hd : ℕ × ℤ) (t : List (ℕ × ℤ)) (uid : ℕ) (p : ℤ) :
    scoreboard_increment (hd :: t) uid p
      = if hd.1 = uid then (hd.1, hd.2 + p) :: t
        else hd :: scoreboard_increment t uid p := by
  obtain ⟨k, v⟩ := hd
  by_cases h : k = uid <;> simp [scoreboard_increment, h]

theorem lookup_block_self (board : List (ℕ × ℤ)) (uid : ℕ) :
    List.lookup uid (block_user board uid) = none := by
  induction board with
  | nil => rfl
  | cons hd t ih =>
      rw [block_user_cons]
      by_cases hk : hd.1 = uid
      · rw [if_pos hk]
        exact ih
      · rw [if_neg hk, lookup_cons_entry, if_neg (fun h => hk h.symm)]
        exact ih

theorem lookup_block_other (board : List (ℕ × ℤ)) (uid uid' : ℕ) (h : uid' ≠ uid) :
    List.lookup uid' (block_user board uid) = List.lookup uid' board := by
  induction board with
  | nil => rfl
  | cons hd t ih =>
      rw [block_user_cons, lookup_cons_entry]
      by_cases hk : hd.1 = uid
      · rw [if_pos hk, if_neg (fun hu => h (hu.trans hk))]
        exact ih
      · rw [if_neg hk, lookup_cons_entry, ih]

theorem lookup_increment_self (board : List (ℕ × ℤ)) (uid : ℕ) (p : ℤ) :
    List.lookup uid (scoreboard_increment board uid p)
      = some ((List.lookup uid board).getD 0 + p) := by
  induction board with
  | nil => simp [scoreboard_increment, List.lookup]
  | cons hd t ih =>
      rw [increment_cons, lookup_cons_entry]
      by_cases hk : hd.1 = uid
      · rw [if_pos hk, lookup_cons_entry, if_pos hk.symm, if_pos hk.symm]
        rfl
      · rw [if_neg hk, lookup_cons_entry, if_neg (fun h => hk h.symm),
          if_neg (fun h => hk h.symm)]
        exact ih

theorem lookup_increment_other (board : List (ℕ × ℤ)) (uid uid' : ℕ) (p : ℤ)
    (h : uid' ≠ uid) :
    List.lookup uid' (scoreboard_increment board uid p) = List.lookup uid' board := by
  induction board with
  | nil =>
      have e : (uid' == uid) = false := by simp [h]
      simp [scoreboard_increment, List.lookup, e]
  | cons hd t ih =>
      rw [increment_cons, lookup_cons_entry]
      by_cases hk : hd.1 = uid
      · rw [if_pos hk, lookup_cons_entry]
        simp only []
        rw [if_neg (fun hu => h (hu.trans hk)), if_neg (fun hu => h (hu.trans hk))]
      · rw [if_neg hk, lookup_cons_entry, ih]

/-- C7 (amended): the persistent scoreboard is mutated not only by the
per-round score aggregation (which increments each rewarded member's
cumulative score, treating a missing entry as 0) but also by the admin
`block` command (which deletes exactly the blocked member's stored score,
leaving every other member's score unchanged) and by the admin-confirmed
`clear` command (which removes all stored scores). -/
theorem scoreboard_mutation_ops (board : List (ℕ × ℤ)) (uid uid' : ℕ) (p : ℤ)
    (h : uid' ≠ uid) :
    List.lookup uid (scoreboard_increment board uid p)
      = some ((List.lookup uid board).getD 0 + p) ∧
    List.lookup uid' (scoreboard_increment board uid p) = List.lookup uid' board ∧
    List.lookup uid (block_user board uid) = none ∧
    List.lookup uid' (block_user board uid) = List.lookup uid' board ∧
    clear_board board = [] := by
  exact ⟨lookup_increment_self board uid p,
    lookup_increment_other board uid uid' p h,
    lookup_block_self board uid,
    lookup_block_other board uid uid' h, rfl⟩

/-- Witness for C7 (amended): board {1 ↦ 10, 2 ↦ 4}, incrementing and
blocking member 1 while member 2 is untouched. -/
theorem scoreboard_mutation_ops_witness :
    (2 ≠ 1) ∧
    (List.lookup 1 (scoreboard_increment [(1, (10 : ℤ)), (2, 4)] 1 5)
      = some ((List.lookup 1 [(1, (10 : ℤ)), (2, 4)]).getD 0 + 5) ∧
    List.lookup 2 (scoreboard_increment [(1, (10 : ℤ)), (2, 4)] 1 5)
      = List.lookup 2 [(1, (10 : ℤ)), (2, 4)] ∧
    List.lookup 1 (block_user [(1, (10 : ℤ)), (2, 4)] 1) = none ∧
    List.lookup 2 (block_user [(1, (10 : ℤ)), (2, 4)] 1)
      = List.lookup 2 [(1, (10 : ℤ)), (2, 4)] ∧
    clear_board [(1, (10 : ℤ)), (2, 4)] = []) := by
  constructor
  · norm_num
  · exact scoreboard_mutation_ops [(1, (10 : ℤ)), (2, 4)] 1 2 5 (by norm_num)

/- ## Leaderboard ranking (cog.py lines 231-251) -/

/-- Embeds the `LeaderboardEntry` namedtuple of cog.py:
`("rank", "score", "tied")`. -/
structure LeaderboardEntry where
  rank : ℕ
  score : ℤ
  tied : Bool
deriving DecidableEq, Repr

/-- Embeds `sorted(scores.items(), key=itemgetter(1), reverse=True)`:
a stable sort of the (member, score) pairs, descending by score. -/
def sorted_scores (scores : List (ℕ × ℤ)) : List (ℕ × ℤ) :=
  List.insertionSort (fun a b => b.2 ≤ a.2) scores

/-- Embeds `itertools.groupby(sorted_scores, key=itemgetter(1))`: maximal
runs of consecutive entries with equal score. -/
def grouped_scores (l : List (ℕ × ℤ)) : List (List (ℕ × ℤ)) :=
  List.splitBy (fun a b => a.2 == b.2) l

/-- Embeds the ranking loop of `NinjaHunt._get_sorted_leaderboard`: every
member of a group receives the current rank counter and
`tied = (len(group) > 1)`, and the counter then advances by the group's
size. -/
def assign_ranks : ℕ → List (List (ℕ × ℤ)) → List (ℕ × LeaderboardEntry)
  | _, [] => []
  | rank, g :: gs =>
      g.map (fun m => (m.1, ⟨rank, m.2, decide (1 < g.length)⟩)) ++
        assign_ranks (rank + g.length) gs

/-- Embeds `NinjaHunt._get_sorted_leaderboard` end to end (the empty mapping
returns the empty leaderboard, as in the `if not scores` early return). -/
def get_sorted_leaderboard (scores : List (ℕ × ℤ)) : List (ℕ × LeaderboardEntry) :=
  assign_ranks 1 (grouped_scores (sorted_scores scores))

theorem assign_ranks_rank_ge (gs : List (List (ℕ × ℤ))) (r : ℕ)
    (p : ℕ × LeaderboardEntry) (hp : p ∈ assign_ranks r gs) :
    r ≤ p.2.rank := by
  induction gs generalizing r with
  | nil => cases hp
  | cons g rest ih =>
      rw [assign_ranks] at hp
      rcases List.mem_append.mp hp with hin | hin
      · rcases List.mem_map.mp hin with ⟨m, _, hm⟩
        rw [← hm]
      · exact le_trans (Nat.le_add_right r g.length) (ih (r + g.length) hin)

/-- C2: the leaderboard sorts descending by score, assigns the running rank
counter to every member of a group of equal scores with
`tied = (group size > 1)`, and advances the counter by the group size; for
scores {A:10, B:10, C:5} it yields A:(1,10,tied), B:(1,10,tied),
C:(3,5,untied), and every rank is 1-indexed. -/
theorem leaderboard_ranking_correct (scores : List (ℕ × ℤ))
    (p : ℕ × LeaderboardEntry) (hp : p ∈ get_sorted_leaderboard scores) :
    get_sorted_leaderboard [(1, 10), (2, 10), (3, 5)]
      = [(1, ⟨1, 10, true⟩), (2, ⟨1, 10, true⟩), (3, ⟨3, 5, false⟩)] ∧
    1 ≤ p.2.rank := by
  constructor
  · decide
  · exact assign_ranks_rank_ge _ 1 p hp

/-- Witness for C2 at the spec's example scoreboard, looking at member A's
entry. -/
theorem leaderboard_ranking_correct_witness :
    ((1, LeaderboardEntry.mk 1 10 true)
        ∈ get_sorted_leaderboard [(1, 10), (2, 10), (3, 5)]) ∧
    (get_sorted_leaderboard [(1, 10), (2, 10), (3, 5)]
      = [(1, ⟨1, 10, true⟩), (2, ⟨1, 10, true⟩), (3, ⟨3, 5, false⟩)] ∧
    1 ≤ (LeaderboardEntry.mk 1 10 true).rank) := by
  constructor
  · decide
  · exact leaderboard_ranking_correct [(1, 10), (2, 10), (3, 5)]
      (1, ⟨1, 10, true⟩) (by decide)

/- ## Hunting eligibility filter (game.py lines 207-239, settings.py lines 16-35) -/

/-- Embeds `settings.AllowDenySet`: a set of snowflake ids, or the wildcard
set `{"*"}`; `__contains__` short-circuits to true under the wildcard. -/
structure AllowDenySet where
  wildcard : Bool
  ids : List ℤ
deriving DecidableEq, Repr

/-- Embeds `AllowDenySet.__contains__` for a channel id. -/
def ad_contains (s : AllowDenySet) (snowflake : ℤ) : Bool :=
  if s.wildcard then true else s.ids.contains snowflake

/-- Embeds `AllowDenySet.__contains__` applied to `message.channel.category_id`,
which may be Python `None` (a message outside any category): `None in s` is
false unless the set is the wildcard. -/
def ad_contains_opt (s : AllowDenySet) (snowflake : Option ℤ) : Bool :=
  if s.wildcard then true
  else
    match snowflake with
    | some i => s.ids.contains i
    | none => false

/-- The fields of an incoming `discord.Message` that
`HuntingPhase._ignored_message` inspects.  `readable`/`writable` are the
`read_messages`/`send_messages` permissions the channel resolves for an
ordinary member holding only the guild's default role. -/
structure Msg where
  guildId : Option ℤ
  authorBot : Bool
  categoryId : Option ℤ
  channelId : ℤ
  readable : Bool
  writable : Bool
deriving DecidableEq, Repr

/-- The settings `_ignored_message` consults: the configured guild id, the
`public_only` switch, and the four allow/deny sets. -/
structure HuntConfig where
  guildId : ℤ
  publicOnly : Bool
  chAllow : AllowDenySet
  chDeny : AllowDenySet
  catAllow : AllowDenySet
  catDeny : AllowDenySet
deriving DecidableEq, Repr

/-- Embeds `HuntingPhase._ignored_message`, clause for clause and in source
order: guild check, bot-author check, the public-only permissions check,
channel deny, channel allow, category deny, category allow, and the final
`return True` default. -/
def ignored_message (cfg : HuntConfig) (m : Msg) : Bool :=
  if m.guildId ≠ some cfg.guildId then true
  else if m.authorBot then true
  else if cfg.publicOnly ∧ ¬(m.readable ∧ m.writable) then true
  else if ad_contains cfg.chDeny m.channelId then true
  else if ad_contains cfg.chAllow m.channelId then false
  else if ad_contains_opt cfg.catDeny m.categoryId then true
  else if ad_contains_opt cfg.catAllow m.categoryId then false
  else true

/-- Eligibility as C3 claims it: membership in the explicit channel allow set
makes a message always eligible regardless of the public-only setting, and
only outside the allow set do the public-only check and then the category
allow/deny check apply, defaulting to ineligible. -/
def eligible_per_claim (cfg : HuntConfig) (m : Msg) : Bool :=
  if m.guildId ≠ some cfg.guildId then false
  else if m.authorBot then false
  else if ad_contains cfg.chDeny m.channelId then false
  else if ad_contains cfg.chAllow m.channelId then true
  else if cfg.publicOnly ∧ ¬(m.readable ∧ m.writable) then false
  else if ad_contains_opt cfg.catDeny m.categoryId then false
  else if ad_contains_opt cfg.catAllow m.categoryId then true
  else false

/-- C3 counterexample: with public-only configured and channel 5 in the
explicit allow set, a non-bot guild message in channel 5 that an ordinary
member cannot read is ignored by the code — the public-only check runs
before the allow-set check — while the claim says the allow set makes it
always eligible. -/
theorem ignored_message_allow_not_override_public_only :
    ignored_message
      ⟨1, true, ⟨false, [5]⟩, ⟨false, []⟩, ⟨false, []⟩, ⟨false, []⟩⟩
      ⟨some 1, false, none, 5, false, false⟩ = true ∧
    eligible_per_claim
      ⟨1, true, ⟨false, [5]⟩, ⟨false, []⟩, ⟨false, []⟩, ⟨false, []⟩⟩
      ⟨some 1, false, none, 5, false, false⟩ = true := by
  exact ⟨rfl, rfl⟩

/-- C3 (amended): a message is eligible (not ignored) iff it is from the
configured guild, its author is not a bot, the public-only check (when
configured) finds the channel readable and writable by an ordinary member —
this check applies to every message, including those in the explicit allow
set — the channel is not in the channel deny set, and either the channel is
in the channel allow set or the category is outside the category deny set
and inside the category allow set; otherwise the message is ignored. -/
theorem ignored_message_characterization (cfg : HuntConfig) (m : Msg) :
    ignored_message cfg m = false ↔
      (m.guildId = some cfg.guildId ∧
       m.authorBot = false ∧
       (cfg.publicOnly = true → m.readable = true ∧ m.writable = true) ∧
       ad_contains cfg.chDeny m.channelId = false ∧
       (ad_contains cfg.chAllow m.channelId = true ∨
         (ad_contains_opt cfg.catDeny m.categoryId = false ∧
          ad_contains_opt cfg.catAllow m.categoryId = true))) := by
  rw [ignored_message]
  split_ifs with h1 h2 h3 h4 h5 h6 h7
  · simp at h1 ⊢
    intro hg
    exact absurd hg h1
  · simp [h2]
  · constructor
    · intro h
      cases h
    · intro ⟨hg, hb, hpub, _⟩
      rcases h3 with ⟨hp, hrw⟩
      rcases hpub hp with ⟨hr, hw⟩
      exact absurd ⟨hr, hw⟩ hrw
  · simp [h4]
  · push_neg at h1
    constructor
    · intro _
      refine ⟨h1, by simpa using h2, ?_, by simpa using h4, Or.inl h5⟩
      intro hp
      by_contra hc
      apply h3
      refine ⟨hp, ?_⟩
      intro ⟨hr, hw⟩
      exact hc ⟨hr, hw⟩
    · intro _
      rfl
  · constructor
    · intro h
      cases h
    · intro ⟨_, _, _, _, hor⟩
      rcases hor with hall | ⟨hcd, _⟩
      · exact absurd hall (by simpa using h5)
      · exact absurd h6 (by simp [hcd])
  · push_neg at h1
    constructor
    · intro _
      refine ⟨h1, by simpa using h2, ?_, by simpa using h4,
        Or.inr ⟨by simpa using h6, h7⟩⟩
      intro hp
      by_contra hc
      apply h3
      refine ⟨hp, ?_⟩
      intro ⟨hr, hw⟩
      exact hc ⟨hr, hw⟩
    · intro _
      rfl
  · constructor
    · intro h
      cases h
    · intro ⟨_, _, _, _, hor⟩
      rcases hor with hall | ⟨_, hca⟩
      · exact absurd hall (by simpa using h5)
      · exact absurd hca (by simpa using h7)

/- ## Hunting selection probability (game.py lines 165-205) -/

/-- Embeds `HuntingPhase.ninja_probability` at counter value `k`:
`p = next(self._probability); return min(p / 100, 1.0)`. -/
def ninja_probability (k : ℕ) : ℚ := min ((k : ℚ) / 100) 1

/-- State of a `HuntingPhase`: `counter` is the next value the
`itertools.count(1)` iterator will yield, `result` the message the future
was resolved with, if any. -/
structure HuntState where
  counter : ℕ
  result : Option ℕ
deriving DecidableEq, Repr

/-- Fresh hunting state: `itertools.count(1)` starts at 1, the future is
unresolved. -/
def initHuntState : HuntState := ⟨1, none⟩

/-- One incoming message as `hunt_for_messages` sees it: `eligible`
abbreviates `self.active and not self._ignored_message(message)` (the guard
of the first early return), `draw` is the value `random.random()` produced
for it, `msgId` identifies the message. -/
structure HuntEvent where
  eligible : Bool
  draw : ℚ
  msgId : ℕ
deriving DecidableEq, Repr

/-- Embeds `HuntingPhase.hunt_for_messages`: an ineligible message returns
before the probability counter is consulted; an eligible message advances
the counter by drawing `ninja_probability` and resolves the future with the
message iff the draw does not exceed `P_MULTIPLIER * ninja_probability`.
The future is single-assignment: a second `set_result` raises
`InvalidStateError` inside the listener and leaves the stored result
unchanged. -/
def hunt_step (mult : ℚ) (s : HuntState) (ev : HuntEvent) : HuntState :=
  if ¬ev.eligible then s
  else if mult * ninja_probability s.counter < ev.draw then
    { s with counter := s.counter + 1 }
  else
    { counter := s.counter + 1,
      result := match s.result with
        | none => some ev.msgId
        | some m => some m }

/-- The whole hunting phase over an incoming message stream. -/
def hunt_messages (mult : ℚ) (s : HuntState) (evs : List HuntEvent) : HuntState :=
  evs.foldl (hunt_step mult) s

/-- Chance that a uniform draw on [0, 1) passes the selection test of
`hunt_for_messages` at counter value `k`: the test accepts draws up to
`mult * min(k/100, 1)`, and the uniform measure of that set is this
threshold clamped into [0, 1]. -/
def selection_probability (mult : ℚ) (k : ℕ) : ℚ :=
  min (max (mult * ninja_probability k) 0) 1

theorem hunt_counter_counts (mult : ℚ) (evs : List HuntEvent) :
    ∀ s : HuntState, (hunt_messages mult s evs).counter
      = s.counter + (evs.filter (fun e => e.eligible)).length := by
  induction evs with
  | nil => intro s; rfl
  | cons ev rest ih =>
      intro s
      by_cases he : ev.eligible
      · have hstep : (hunt_step mult s ev).counter = s.counter + 1 := by
          rw [hunt_step]
          rw [if_neg (by simp [he])]
          split_ifs <;> rfl
        have : hunt_messages mult s (ev :: rest)
            = hunt_messages mult (hunt_step mult s ev) rest := rfl
        rw [this, ih, hstep, List.filter_cons, if_pos (by simp [he])]
        simp [List.length_cons]
        omega
      · have hstep : hunt_step mult s ev = s := by
          rw [hunt_step, if_pos (by simp [he])]
        have : hunt_messages mult s (ev :: rest)
            = hunt_messages mult (hunt_step mult s ev) rest := rfl
        rw [this, hstep, ih, List.filter_cons, if_neg (by simp [he])]

theorem ninja_probability_mono (k kL : ℕ) (hk : k ≤ kL) :
    ninja_probability k ≤ ninja_probability kL := by
  apply min_le_min _ le_rfl
  apply div_le_div_of_nonneg_right _ (by norm_num)
  exact_mod_cast hk

/-- C8: the per-phase counter starts at 1 and advances exactly once per
eligible message (ineligible messages leave it untouched); the k-th eligible
message is selected iff its uniform draw is at most
`min(k/100, 1) * multiplier`; `min(k/100, 1)` is capped at 1 before the
multiplier is applied; and the effective selection probability is
non-decreasing in k and clamped at 1 overall. -/
theorem hunt_probability_correct (mult : ℚ) (k kL : ℕ) (s : HuntState)
    (ev evI : HuntEvent) (evs : List HuntEvent)
    (hm : 0 ≤ mult) (hk : k ≤ kL) (hres : s.result = none)
    (helig : ev.eligible = true) (hinel : evI.eligible = false) :
    initHuntState.counter = 1 ∧
    (hunt_messages mult initHuntState evs).counter
      = 1 + (evs.filter (fun e => e.eligible)).length ∧
    hunt_step mult s evI = s ∧
    ((hunt_step mult s ev).result = some ev.msgId ↔
      ev.draw ≤ mult * ninja_probability s.counter) ∧
    ninja_probability k ≤ 1 ∧
    mult * ninja_probability k ≤ mult * ninja_probability kL ∧
    selection_probability mult k ≤ 1 ∧
    selection_probability mult k ≤ selection_probability mult kL := by
  refine ⟨rfl, ?_, ?_, ?_, ?_, ?_, ?_, ?_⟩
  · rw [hunt_counter_counts]
    rfl
  · rw [hunt_step, if_pos (by simp [hinel])]
  · rw [hunt_step, if_neg (by simp [helig])]
    by_cases hd : mult * ninja_probability s.counter < ev.draw
    · rw [if_pos hd]
      constructor
      · intro h
        rw [hres] at h
        cases h
      · intro h
        exact absurd hd (not_lt.mpr h)
    · rw [if_neg hd, hres]
      constructor
      · intro _
        exact not_lt.mp hd
      · intro _
        rfl
  · exact min_le_right _ _
  · exact mul_le_mul_of_nonneg_left (ninja_probability_mono k kL hk) hm
  · exact min_le_right _ _
  · apply min_le_min _ le_rfl
    apply max_le_max _ le_rfl
    exact mul_le_mul_of_nonneg_left (ninja_probability_mono k kL hk) hm

/-- Witness for C8: multiplier 2, counters 3 and 5, a pending state at
counter 4, an eligible event with draw 1/100 on message 42, an ineligible
event, and a three-message stream with two eligible messages. -/
theorem hunt_probability_correct_witness :
    ((0 : ℚ) ≤ 2 ∧ 3 ≤ 5 ∧ (HuntState.mk 4 none).result = none ∧
      (HuntEvent.mk true (1/100) 42).eligible = true ∧
      (HuntEvent.mk false 0 7).eligible = false) ∧
    (initHuntState.counter = 1 ∧
    (hunt_messages 2 initHuntState
        [⟨true, 1, 1⟩, ⟨false, 0, 2⟩, ⟨true, 1/2, 3⟩]).counter
      = 1 + ([(⟨true, 1, 1⟩ : HuntEvent), ⟨false, 0, 2⟩,
          ⟨true, 1/2, 3⟩].filter (fun e => e.eligible)).length ∧
    hunt_step 2 ⟨4, none⟩ ⟨false, 0, 7⟩ = ⟨4, none⟩ ∧
    ((hunt_step 2 ⟨4, none⟩ ⟨true, 1/100, 42⟩).result = some 42 ↔
      (1/100 : ℚ) ≤ 2 * ninja_probability 4) ∧
    ninja_probability 3 ≤ 1 ∧
    2 * ninja_probability 3 ≤ 2 * ninja_probability 5 ∧
    selection_probability 2 3 ≤ 1 ∧
    selection_probability 2 3 ≤ selection_probability 2 5) := by
  constructor
  · refine ⟨by norm_num, by norm_num, rfl, rfl, rfl⟩
  · exact hunt_probability_correct 2 3 5 ⟨4, none⟩ ⟨true, 1/100, 42⟩ ⟨false, 0, 7⟩
      [⟨true, 1, 1⟩, ⟨false, 0, 2⟩, ⟨true, 1/2, 3⟩]
      (by norm_num) (by norm_num) rfl rfl rfl

/- ## Reaction collection (game.py lines 242-359) -/

/-- The fields of a `discord.RawReactionActionEvent` that the reaction
listener inspects: reactor id, target message id, the custom-emoji id
(`none` models a unicode emoji, whose `id` attribute is `None`), the
event-supplied member data if present, and the elapsed phase time at which
the event arrives. -/
structure RawReactionEvent where
  userId : ℕ
  messageId : ℕ
  emojiId : Option ℕ
  memberData : Option ℕ
  elapsed : ℚ
deriving DecidableEq, Repr

/-- Embeds the `ReactionPoints` namedtuple: `("member", "points")`. -/
structure ReactionPoints where
  member : ℕ
  points : ℤ
deriving DecidableEq, Repr

/-- State of a `ReactionPhase` as the listener sees it: the
insertion-ordered `_rewarded_users` dict, the `active` property, and
`_used_emoji` (the marker's id, `none` before `__aenter__` sets it). -/
structure ReactionState where
  rewarded : List (ℕ × ReactionPoints)
  activeFlag : Bool
  usedEmoji : Option ℕ
deriving DecidableEq, Repr

/-- Embeds `ReactionPhase._relevant_reaction`, exclusion check for
exclusion check in source order. -/
def relevant_reaction (botId targetMsgId : ℕ) (s : ReactionState)
    (r : RawReactionEvent) : Bool :=
  if ¬s.activeFlag ∨ s.usedEmoji = none then false
  else if r.userId = botId then false
  else if r.messageId ≠ targetMsgId then false
  else if r.emojiId = none then false
  else if r.emojiId ≠ s.usedEmoji then false
  else if (List.lookup r.userId s.rewarded).isSome then false
  else true

/-- Embeds `ReactionPhase._listen_for_reactions`: an irrelevant reaction is
dropped; a relevant one resolves the member (event-supplied member data if
present, else a fetch by the reactor id, which yields the member with that
id) and records a `ReactionPoints` entry keyed by the reactor id, scored by
`_calculate_win_points` at the event's elapsed time. -/
def listen_for_reactions (T P botId targetMsgId : ℕ) (s : ReactionState)
    (r : RawReactionEvent) : ReactionState :=
  if ¬relevant_reaction botId targetMsgId s r then s
  else
    { s with rewarded := s.rewarded ++
        [(r.userId, ⟨r.memberData.getD r.userId,
          calculate_win_points T P r.elapsed⟩)] }

/-- The reaction listener applied to the phase's whole event stream in
arrival order. -/
def process_reactions (T P botId targetMsgId : ℕ) (s : ReactionState)
    (evs : List RawReactionEvent) : ReactionState :=
  evs.foldl (listen_for_reactions T P botId targetMsgId) s

theorem lookup_cons_generic {β : Type} (a : ℕ) (hd : ℕ × β) (t : List (ℕ × β)) :
    List.lookup a (hd :: t) = if a = hd.1 then some hd.2 else List.lookup a t := by
  obtain ⟨k, v⟩ := hd
  by_cases h : a = k
  · simp [List.lookup, h]
  · have e : (a == k) = false := by simp [h]
    simp [List.lookup, e, h]

theorem lookup_append_some {β : Type} (a : ℕ) (l l2 : List (ℕ × β)) (v : β)
    (h : List.lookup a l = some v) : List.lookup a (l ++ l2) = some v := by
  induction l with
  | nil => cases h
  | cons hd t ih =>
      rw [lookup_cons_generic] at h
      rw [List.cons_append, lookup_cons_generic]
      by_cases hk : a = hd.1
      · rw [if_pos hk] at h ⊢
        exact h
      · rw [if_neg hk] at h ⊢
        exact ih h

theorem lookup_none_not_mem {β : Type} (a : ℕ) (l : List (ℕ × β))
    (h : List.lookup a l = none) : a ∉ l.map Prod.fst := by
  induction l with
  | nil => simp
  | cons hd t ih =>
      rw [lookup_cons_generic] at h
      by_cases hk : a = hd.1
      · rw [if_pos hk] at h
        cases h
      · rw [if_neg hk] at h
        simp [List.mem_cons, hk, ih h]

theorem relevant_lookup_none (botId targetMsgId : ℕ) (s : ReactionState)
    (r : RawReactionEvent) (h : relevant_reaction botId targetMsgId s r = true) :
    List.lookup r.userId s.rewarded = none := by
  rw [relevant_reaction] at h
  split_ifs at h with h1 h2 h3 h4 h5 h6
  any_goals cases h
  exact Option.not_isSome_iff_eq_none.mp (by simpa using h6)

theorem listen_step_nodup (T P botId targetMsgId : ℕ) (s : ReactionState)
    (r : RawReactionEvent) (h : (s.rewarded.map Prod.fst).Nodup) :
    ((listen_for_reactions T P botId targetMsgId s r).rewarded.map Prod.fst).Nodup := by
  rw [listen_for_reactions]
  by_cases hr : relevant_reaction botId targetMsgId s r = true
  · rw [if_neg (by simp [hr])]
    have hnone := relevant_lookup_none botId targetMsgId s r hr
    have hnotmem := lookup_none_not_mem _ _ hnone
    simp only [List.map_append, List.map_cons, List.map_nil]
    rw [List.nodup_append_comm]
    simp [List.nodup_cons, h, hnotmem]
  · rw [if_pos (by simpa using hr)]
    exact h

theorem listen_step_preserve (T P botId targetMsgId : ℕ) (s : ReactionState)
    (r : RawReactionEvent) (uid : ℕ) (v : ReactionPoints)
    (h : List.lookup uid s.rewarded = some v) :
    List.lookup uid (listen_for_reactions T P botId targetMsgId s r).rewarded
      = some v := by
  rw [listen_for_reactions]
  by_cases hr : relevant_reaction botId targetMsgId s r = true
  · rw [if_neg (by simp [hr])]
    exact lookup_append_some _ _ _ _ h
  · rw [if_pos (by simpa using hr)]
    exact h

theorem process_reactions_invariant (T P botId targetMsgId : ℕ)
    (evs : List RawReactionEvent) :
    ∀ s : ReactionState, ((s.rewarded.map Prod.fst).Nodup →
      (((process_reactions T P botId targetMsgId s evs).rewarded.map
        Prod.fst).Nodup)) ∧
    ∀ uid v, List.lookup uid s.rewarded = some v →
      List.lookup uid (process_reactions T P botId targetMsgId s evs).rewarded
        = some v := by
  induction evs with
  | nil => intro s; exact ⟨fun h => h, fun _ _ h => h⟩
  | cons r rest ih =>
      intro s
      have hfold : process_reactions T P botId targetMsgId s (r :: rest)
          = process_reactions T P botId targetMsgId
              (listen_for_reactions T P botId targetMsgId s r) rest := rfl
      rw [hfold]
      constructor
      · intro h
        exact (ih _).1 (listen_step_nodup T P botId targetMsgId s r h)
      · intro uid v h
        exact (ih _).2 uid v
          (listen_step_preserve T P botId targetMsgId s r uid v h)

/-- C6: starting from any listener state whose rewarded dict has no
duplicate member keys, processing any stream of raw reaction events leaves
the keys duplicate-free (at most one entry per member id per round), and an
entry once recorded for a member is never replaced — the points of the
first qualifying reaction stand, later reactions from the same member in
the same round are ignored. -/
theorem round_result_unique_first_wins (T P botId targetMsgId uid : ℕ)
    (v : ReactionPoints) (s : ReactionState) (evs : List RawReactionEvent)
    (hnd : (s.rewarded.map Prod.fst).Nodup)
    (hv : List.lookup uid s.rewarded = some v) :
    (((process_reactions T P botId targetMsgId s evs).rewarded.map
      Prod.fst).Nodup) ∧
    List.lookup uid (process_reactions T P botId targetMsgId s evs).rewarded
      = some v := by
  exact ⟨(process_reactions_invariant T P botId targetMsgId evs s).1 hnd,
    (process_reactions_invariant T P botId targetMsgId evs s).2 uid v hv⟩

/-- Witness for C6: a round with window 60 s and max points 10, bot id 99,
marked message 500, marker emoji id 3; member 7 already holds a 9-point
entry and reacts again, and member 8 reacts for the first time — member 7's
entry survives and keys stay unique. -/
theorem round_result_unique_first_wins_witness :
    ((([((7 : ℕ), ReactionPoints.mk 7 9)].map Prod.fst).Nodup) ∧
      List.lookup 7 [((7 : ℕ), ReactionPoints.mk 7 9)] = some ⟨7, 9⟩) ∧
    ((((process_reactions 60 10 99 500 ⟨[(7, ⟨7, 9⟩)], true, some 3⟩
        [⟨7, 500, some 3, some 7, 30⟩, ⟨8, 500, some 3, none, 30⟩]).rewarded.map
      Prod.fst).Nodup) ∧
    List.lookup 7 (process_reactions 60 10 99 500 ⟨[(7, ⟨7, 9⟩)], true, some 3⟩
        [⟨7, 500, some 3, some 7, 30⟩, ⟨8, 500, some 3, none, 30⟩]).rewarded
      = some ⟨7, 9⟩) := by
  constructor
  · exact ⟨by decide, rfl⟩
  · exact round_result_unique_first_wins 60 10 99 500 7 ⟨7, 9⟩
      ⟨[(7, ⟨7, 9⟩)], true, some 3⟩
      [⟨7, 500, some 3, some 7, 30⟩, ⟨8, 500, some 3, none, 30⟩]
      (by decide) rfl
